import Mathlib

/-!
Verification of the training-loop core of `cli_lora_pti.py` (Pivotal Tuning
Inversion).  The Python source drives two training loops (`train_inversion`
and `perform_tuning`) around a shared per-step loss computation
(`loss_step`), plus token/config validation in `train` and `get_models`.

The embedding below models, directly from the source:
  * the epoch / global-step bookkeeping of both loops (outer loop of
    `math.ceil(num_steps / len(dataloader))` epochs, inner loop over the
    loader that increments `global_step` and breaks once it reaches
    `num_steps`);
  * the gradient-accumulation boundary condition
    `global_step % accum_iter == 0` and the writes it performs on the token
    embedding table (optimizer step, optional `clip_ti_decay`
    renormalization of the trainable rows, unconditional reset of the
    frozen rows from the `orig_embeds_params` snapshot);
  * the scalar loss reduction `F.mse_loss(..., reduction="none")
    .mean([1,2,3]).mean()` (floats modelled as exact rationals);
  * the timestep sampling `torch.randint(0, int(T * t_mutliplier), ...)`
    (the float multiplier modelled as an exact fraction, `torch.randint`
    modelled as reduction of an arbitrary natural seed modulo the bound);
  * the supervision-mask weighting `(mask + 0.01) ** mask_temperature`
    normalized by its own maximum (reals, since the exponent is a float);
  * checkpoint file naming in both loops;
  * the local-variable scoping of `pre_norm` (assigned only under the
    `clip_ti_decay` guard, read unconditionally in the logging line);
  * the startup validation asserts of `train`, the initializer-token
    resolution of `get_models`, and the prediction-type dispatch of
    `loss_step` (fallible paths as `Except`).
-/

namespace CliLoraPti

/-! ### Loop step bookkeeping (`train_inversion` / `perform_tuning`)

Both loops have the shape

    for epoch in range(math.ceil(num_steps / len(dataloader))):
        for batch in dataloader:
            ... one loss/backward step ...
            global_step += 1
            ...
            if global_step >= num_steps:
                break

`step_inner n b s` runs the inner loop over `b` remaining batches starting
from global step `s`; `step_epochs` runs `e` outer epochs, each over the
whole loader of length `L`.  The value tracked is `global_step`, i.e. the
number of loss/backward steps executed so far. -/

def step_inner (n : ℕ) : ℕ → ℕ → ℕ
  | 0, s => s
  | b + 1, s =>
    let s' := s + 1
    if n ≤ s' then s' else step_inner n b s'

def step_epochs (n L : ℕ) : ℕ → ℕ → ℕ
  | 0, s => s
  | e + 1, s => step_epochs n L e (step_inner n L s)

/-- Number of loss/backward steps executed by `train_inversion` with
`num_steps = n` over a loader of length `L`: the outer loop runs
`math.ceil(n / L)` epochs (exact ceiling division `(n + L - 1) / L`). -/
def train_inversion_step_count (n L : ℕ) : ℕ :=
  step_epochs n L ((n + L - 1) / L) 0

/-- Number of loss/backward steps executed by `perform_tuning`; the
epoch/step/break structure is identical to `train_inversion`. -/
def perform_tuning_step_count (n L : ℕ) : ℕ :=
  step_epochs n L ((n + L - 1) / L) 0

/-! ### Gradient-accumulation boundaries (`train_inversion`)

`train_inversion` initializes `global_step = 0` and, inside the batch loop
*before* incrementing `global_step`, runs the optimizer-step block when
`global_step % accum_iter == 0`.  `grad_accum_sim a b g c` processes `b`
batches starting at step counter `g` with `c` gradients currently
accumulated; each batch adds one gradient (one `loss.backward()`), and a
boundary consumes the accumulated gradients (optimizer step +
`zero_grad`).  It returns the list of `(global_step, consumed gradient
count)` pairs, one per optimizer step, in order. -/

def accumulation_fires (accum_iter global_step : ℕ) : Bool :=
  global_step % accum_iter == 0

def grad_accum_sim (accum_iter : ℕ) : ℕ → ℕ → ℕ → List (ℕ × ℕ)
  | 0, _, _ => []
  | b + 1, g, c =>
    let c' := c + 1
    if g % accum_iter == 0 then
      (g, c') :: grad_accum_sim accum_iter b (g + 1) 0
    else
      grad_accum_sim accum_iter b (g + 1) c'

end CliLoraPti

namespace CliLoraPti

/-! ### Arithmetic helper lemmas -/

theorem ceil_div_bounds (n L : ℕ) (hn : 1 ≤ n) (hL : 1 ≤ L) :
    1 ≤ (n + L - 1) / L ∧ n ≤ ((n + L - 1) / L) * L ∧
      (((n + L - 1) / L) - 1) * L < n := by
  set e := (n + L - 1) / L with he
  have hmod := Nat.div_add_mod (n + L - 1) L
  have hr : (n + L - 1) % L < L := Nat.mod_lt _ hL
  rw [← he] at hmod
  have hkey : L * e + (n + L - 1) % L = n + L - 1 := hmod
  have he1 : 1 ≤ e := by
    rcases Nat.eq_zero_or_pos e with h0 | h1
    · rw [h0, Nat.mul_zero] at hkey; omega
    · exact h1
  have hlow : n ≤ e * L := by
    rw [Nat.mul_comm]; omega
  refine ⟨he1, hlow, ?_⟩
  rw [Nat.sub_one_mul, Nat.mul_comm e L]
  omega

theorem step_inner_eq (n : ℕ) :
    ∀ b s, s < n → step_inner n b s = min (s + b) n := by
  intro b
  induction b with
  | zero => intro s hs; simp [step_inner]; omega
  | succ b ih =>
    intro s hs
    rw [step_inner]
    by_cases h : n ≤ s + 1
    · simp only [h, if_true]; omega
    · simp only [h, if_false]
      rw [ih (s + 1) (by omega)]
      omega

theorem step_epochs_eq (n L : ℕ) :
    ∀ e s, s < n → n ≤ s + e * L → s + (e - 1) * L < n →
      step_epochs n L e s = n := by
  intro e
  induction e with
  | zero => intro s hs hub _; omega
  | succ e ih =>
    intro s hs hub hlb
    rw [step_epochs, step_inner_eq n L s hs]
    rcases Nat.eq_zero_or_pos e with he0 | he1
    · subst he0
      have : min (s + L) n = n := by simp at hub ⊢; omega
      rw [this]
      rfl
    · have hsL : s + L < n := by
        have : s + e * L ≤ s + (e + 1 - 1) * L := by simp
        have hL1 : L ≤ e * L := Nat.le_mul_of_pos_left L he1
        omega
      have : min (s + L) n = s + L := by omega
      rw [this]
      exact ih (s + L) hsL (by rw [Nat.succ_mul] at hub; omega)
        (by rw [Nat.succ_sub_one] at hlb; rcases Nat.exists_eq_add_of_le he1 with ⟨k, hk⟩
            subst hk; rw [Nat.add_sub_cancel_left, Nat.add_mul] at *; omega)

theorem grad_accum_sim_eq (a : ℕ) (ha : 1 ≤ a) :
    ∀ b g, 1 ≤ g → grad_accum_sim a b g ((g - 1) % a) =
      ((List.range' g b).filter (fun x => x % a == 0)).map (fun x => (x, a)) := by
  intro b
  induction b with
  | zero => intro g _; simp [grad_accum_sim]
  | succ b ih =>
    intro g hg
    rw [grad_accum_sim, List.range'_succ, List.filter_cons]
    by_cases h : g % a = 0
    · have hdvd : a ∣ g := Nat.dvd_of_mod_eq_zero h
      rcases hdvd with ⟨q, hq⟩
      have hq1 : 1 ≤ q := by
        rcases Nat.eq_zero_or_pos q with h0 | h1
        · subst h0; omega
        · exact h1
      have hpred : (g - 1) % a = a - 1 := by
        rcases Nat.exists_eq_add_of_le hq1 with ⟨k, hk⟩
        subst hk hq
        have h1 : a * (1 + k) - 1 = (a - 1) + k * a := by
          rw [Nat.mul_add, Nat.mul_one, Nat.mul_comm a k]; omega
        rw [h1, Nat.add_mul_mod_self_right, Nat.mod_eq_of_lt (by omega)]
      have hb : (g % a == 0) = true := by simp [h]
      have hnext := ih (g + 1) (by omega)
      rw [show ((g + 1) - 1) % a = 0 by simp [h]] at hnext
      simp only [hb, if_true]
      rw [show (g - 1) % a + 1 = a by omega, hnext, List.map_cons]
    · have hmod := Nat.div_add_mod g a
      have hrlt : g % a < a := Nat.mod_lt _ ha
      have hr1 : 1 ≤ g % a := by omega
      have hpred : (g - 1) % a = g % a - 1 := by
        have h1 : g - 1 = (g % a - 1) + (g / a) * a := by
          rw [Nat.mul_comm]; omega

        rw [h1, Nat.add_mul_mod_self_right, Nat.mod_eq_of_lt (by omega)]
      have hb : (g % a == 0) = false := by simp [h]
      have hnext := ih (g + 1) (by omega)
      rw [show ((g + 1) - 1) % a = g % a by simp] at hnext
      simp only [hb, Bool.false_eq_true, if_false]
      rw [show (g - 1) % a + 1 = g % a by omega, hnext]

end CliLoraPti

namespace CliLoraPti

/-- Claim C3: for every `num_steps ≥ 1` and loader length `≥ 1`,
`train_inversion` and `perform_tuning` each execute exactly `num_steps`
loss/backward steps and terminate: the outer loop runs
`ceil(num_steps / len(dataloader))` epochs and the inner loop breaks as soon
as the global step counter reaches `num_steps`, so even when `num_steps` is
not divisible by the loader length no extra steps are executed. -/
theorem loops_execute_exactly_num_steps (n L : ℕ) (hn : 1 ≤ n) (hL : 1 ≤ L) :
    train_inversion_step_count n L = n ∧ perform_tuning_step_count n L = n := by
  obtain ⟨h1, h2, h3⟩ := ceil_div_bounds n L hn hL
  constructor
  · exact step_epochs_eq n L ((n + L - 1) / L) 0 (by omega) (by omega) (by omega)
  · exact step_epochs_eq n L ((n + L - 1) / L) 0 (by omega) (by omega) (by omega)

/-- Witness for C3 at `num_steps = 5`, loader length `3` (not divisible). -/
theorem loops_execute_exactly_num_steps_witness :
    (1 ≤ 5 ∧ 1 ≤ 3) ∧
      (train_inversion_step_count 5 3 = 5 ∧ perform_tuning_step_count 5 3 = 5) :=
  ⟨by decide, loops_execute_exactly_num_steps 5 3 (by decide) (by decide)⟩

/-- Claim C10: with `global_step` starting at 0 and the boundary condition
`global_step % accum_iter == 0` checked before the increment, the embedding
optimizer steps on the very first batch for every `accum_iter ≥ 1`, its
first accumulation window holding exactly one batch gradient; subsequent
optimizer steps occur at step-counter values `accum_iter, 2*accum_iter, …`,
each consuming `accum_iter` batch gradients. -/
theorem first_batch_optimizer_step (a m : ℕ) (ha : 1 ≤ a) (hm : 1 ≤ m) :
    accumulation_fires a 0 = true ∧
      grad_accum_sim a m 0 0 =
        (0, 1) :: ((List.range' 1 (m - 1)).filter (fun g => g % a == 0)).map
          (fun g => (g, a)) := by
  constructor
  · simp [accumulation_fires]
  · obtain ⟨m', rfl⟩ : ∃ m', m = m' + 1 := ⟨m - 1, by omega⟩
    rw [grad_accum_sim]
    simp only [Nat.zero_mod, beq_self_eq_true, if_true]
    have hnext := grad_accum_sim_eq a ha m' 1 (by omega)
    rw [show ((1 : ℕ) - 1) % a = 0 by simp] at hnext
    rw [hnext]
    simp

/-- Witness for C10 at `accum_iter = 2` over `5` batches. -/
theorem first_batch_optimizer_step_witness :
    (1 ≤ 2 ∧ 1 ≤ 5) ∧
      (accumulation_fires 2 0 = true ∧
        grad_accum_sim 2 5 0 0 =
          (0, 1) :: ((List.range' 1 (5 - 1)).filter (fun g => g % 2 == 0)).map
            (fun g => (g, 2))) :=
  ⟨by decide, first_batch_optimizer_step 2 5 (by decide) (by decide)⟩

end CliLoraPti

namespace CliLoraPti

/-! ### Embedding-table writes at an accumulation boundary (`train_inversion`)

At each boundary (`global_step % accum_iter == 0`) `train_inversion`
performs, in order, on the token embedding table:
  1. `optimizer.step()` — an arbitrary in-place update of the whole table
     (modelled as an arbitrary function on tables, since e.g. AdamW weight
     decay can move any row, including frozen ones);
  2. under `torch.no_grad()`, if `clip_ti_decay`: overwrite the rows
     selected by `index_updates = ~index_no_updates` with a per-row
     renormalization (a function of that row alone);
  3. unconditionally overwrite the rows selected by `index_no_updates`
     with `orig_embeds_params` (the snapshot cloned at function entry).
Between boundaries only `loss.backward()` runs, which mutates gradients,
never the weight data, so the table state after `k` optimizer steps is the
`k`-fold composition of the boundary writes applied to the initial table
(which is what `orig_embeds_params` was cloned from).  Rows are indexed by
`ℕ`, entries live in an arbitrary type `V` (bit-identity = equality). -/

def reset_frozen_rows {V : Type} (orig_embeds_params : ℕ → V)
    (index_no_updates : ℕ → Bool) (w : ℕ → V) : ℕ → V :=
  fun i => if index_no_updates i then orig_embeds_params i else w i

def renorm_trainable_rows {V : Type} (index_no_updates : ℕ → Bool)
    (clip_ti_decay : Bool) (renorm : V → V) (w : ℕ → V) : ℕ → V :=
  fun i => if clip_ti_decay && !index_no_updates i then renorm (w i) else w i

def accumulation_boundary_writes {V : Type} (orig_embeds_params : ℕ → V)
    (index_no_updates : ℕ → Bool) (clip_ti_decay : Bool)
    (optimizer_step : (ℕ → V) → ℕ → V) (renorm : V → V) (w : ℕ → V) : ℕ → V :=
  reset_frozen_rows orig_embeds_params index_no_updates
    (renorm_trainable_rows index_no_updates clip_ti_decay renorm
      (optimizer_step w))

def embedding_after_steps {V : Type} (orig_embeds_params : ℕ → V)
    (index_no_updates : ℕ → Bool) (clip_ti_decay : Bool)
    (optimizer_steps : ℕ → (ℕ → V) → ℕ → V) (renorms : ℕ → V → V) :
    ℕ → ℕ → V
  | 0 => orig_embeds_params
  | k + 1 => accumulation_boundary_writes orig_embeds_params index_no_updates
      clip_ti_decay (optimizer_steps k) (renorms k)
      (embedding_after_steps orig_embeds_params index_no_updates clip_ti_decay
        optimizer_steps renorms k)

/-! ### Scoping of `pre_norm` inside the boundary block (`train_inversion`)

`pre_norm` is a function-local Python variable assigned only inside the
`if clip_ti_decay:` guard, yet read unconditionally by the logging line
`logs['ti/pre_norm'] = pre_norm...` at the end of the `torch.no_grad()`
block.  The run simulation threads a Boolean "has `pre_norm` been
assigned" flag through the loop; reading the variable while the flag is
`false` raises `UnboundLocalError`, which aborts the run.  On error the
simulation reports the number of loss/backward steps already executed
(the boundary block runs after this batch's `loss.backward()` and before
the `global_step` increment). -/

def ti_run_inner (clip_ti_decay : Bool) (accum_iter n : ℕ) :
    ℕ → ℕ → Bool → Except (String × ℕ) (ℕ × Bool)
  | 0, s, pn => .ok (s, pn)
  | b + 1, s, pn =>
    if s % accum_iter == 0 then
      let pn' := clip_ti_decay || pn
      if pn' then
        if n ≤ s + 1 then .ok (s + 1, pn')
        else ti_run_inner clip_ti_decay accum_iter n b (s + 1) pn'
      else
        .error ("UnboundLocalError: pre_norm referenced before assignment",
          s + 1)
    else
      if n ≤ s + 1 then .ok (s + 1, pn)
      else ti_run_inner clip_ti_decay accum_iter n b (s + 1) pn

def ti_run_epochs (clip_ti_decay : Bool) (accum_iter n L : ℕ) :
    ℕ → ℕ → Bool → Except (String × ℕ) (ℕ × Bool)
  | 0, s, pn => .ok (s, pn)
  | e + 1, s, pn =>
    match ti_run_inner clip_ti_decay accum_iter n L s pn with
    | .error x => .error x
    | .ok (s', pn') => ti_run_epochs clip_ti_decay accum_iter n L e s' pn'

def train_inversion_run (clip_ti_decay : Bool) (n L accum_iter : ℕ) :
    Except (String × ℕ) ℕ :=
  (ti_run_epochs clip_ti_decay accum_iter n L ((n + L - 1) / L) 0 false).map
    (fun p => p.1)

end CliLoraPti

namespace CliLoraPti

theorem ti_run_inner_ok (a n : ℕ) :
    ∀ b s pn, s < n → ∃ pn', ti_run_inner true a n b s pn =
      .ok (min (s + b) n, pn') := by
  intro b
  induction b with
  | zero =>
    intro s pn hs
    refine ⟨pn, ?_⟩
    rw [ti_run_inner, show min (s + 0) n = s by omega]
  | succ b ih =>
    intro s pn hs
    rw [ti_run_inner]
    by_cases hb : s % a == 0
    · simp only [hb, if_true, Bool.true_or]
      by_cases hend : n ≤ s + 1
      · exact ⟨true, by simp only [hend, if_true, show min (s + (b + 1)) n = s + 1 by omega]⟩
      · obtain ⟨pn', hpn'⟩ := ih (s + 1) true (by omega)
        rw [show s + 1 + b = s + (b + 1) by omega] at hpn'
        exact ⟨pn', by simp only [hend, if_false]; exact hpn'⟩
    · simp only [Bool.not_eq_true] at hb
      simp only [hb, Bool.false_eq_true, if_false]
      by_cases hend : n ≤ s + 1
      · exact ⟨pn, by simp only [hend, if_true, show min (s + (b + 1)) n = s + 1 by omega]⟩
      · obtain ⟨pn', hpn'⟩ := ih (s + 1) pn (by omega)
        rw [show s + 1 + b = s + (b + 1) by omega] at hpn'
        exact ⟨pn', by simp only [hend, if_false]; exact hpn'⟩

theorem ti_run_epochs_ok (a n L : ℕ) :
    ∀ e s pn, s < n → n ≤ s + e * L → s + (e - 1) * L < n →
      ∃ pn', ti_run_epochs true a n L e s pn = .ok (n, pn') := by
  intro e
  induction e with
  | zero => intro s pn hs hub _; omega
  | succ e ih =>
    intro s pn hs hub hlb
    obtain ⟨pn1, h1⟩ := ti_run_inner_ok a n L s pn hs
    rcases Nat.eq_zero_or_pos e with he0 | he1
    · subst he0
      rw [show min (s + L) n = n by simp at hub ⊢; omega] at h1
      exact ⟨pn1, by rw [ti_run_epochs, h1]; rfl⟩
    · have hsL : s + L < n := by
        have hL1 : L ≤ e * L := Nat.le_mul_of_pos_left L he1
        have hlb' : s + e * L < n := by rw [Nat.succ_sub_one] at hlb; exact hlb
        omega
      rw [show min (s + L) n = s + L by omega] at h1
      obtain ⟨pn2, h2⟩ := ih (s + L) pn1 hsL
        (by rw [Nat.succ_mul] at hub; omega)
        (by rcases Nat.exists_eq_add_of_le he1 with ⟨k, hk⟩
            subst hk
            rw [Nat.succ_sub_one] at hlb
            rw [Nat.add_sub_cancel_left, Nat.add_mul] at *
            omega)
      exact ⟨pn2, by rw [ti_run_epochs, h1]; exact h2⟩

end CliLoraPti

namespace CliLoraPti

/-- Claim C1: after every embedding-optimizer step (accumulation boundary)
of `train_inversion`, every embedding row whose index is in
`index_no_updates` equals the `orig_embeds_params` snapshot taken when
`train_inversion` began, for any behaviour of the optimizer and any
`clip_ti_decay` setting; the only rows that can differ from the snapshot
are the rows with `index_no_updates` false (the placeholder-token rows). -/
theorem frozen_rows_bit_identical {V : Type} (orig_embeds_params : ℕ → V)
    (index_no_updates : ℕ → Bool) (clip_ti_decay : Bool)
    (optimizer_steps : ℕ → (ℕ → V) → ℕ → V) (renorms : ℕ → V → V)
    (k i : ℕ) (hk : 1 ≤ k) (hi : index_no_updates i = true) :
    embedding_after_steps orig_embeds_params index_no_updates clip_ti_decay
        optimizer_steps renorms k i = orig_embeds_params i ∧
      ∀ k' i', embedding_after_steps orig_embeds_params index_no_updates
          clip_ti_decay optimizer_steps renorms k' i' ≠ orig_embeds_params i' →
        index_no_updates i' = false := by
  constructor
  · obtain ⟨k', rfl⟩ : ∃ k', k = k' + 1 := ⟨k - 1, by omega⟩
    simp [embedding_after_steps, accumulation_boundary_writes,
      reset_frozen_rows, hi]
  · intro k' i' hne
    cases k' with
    | zero => exact absurd rfl hne
    | succ k'' =>
      by_cases hu : index_no_updates i' = true
      · exact absurd (by simp [embedding_after_steps,
          accumulation_boundary_writes, reset_frozen_rows, hu]) hne
      · simpa using hu

/-- Witness for C1: one optimizer step over `ℤ`-valued rows, row 0 frozen. -/
theorem frozen_rows_bit_identical_witness :
    (1 ≤ 1 ∧ (fun i : ℕ => i == 0) 0 = true) ∧
      (embedding_after_steps (fun _ => (7 : ℤ)) (fun i => i == 0) true
          (fun _ w i => w i + 1) (fun _ v => v + v) 1 0 = (fun _ => (7 : ℤ)) 0 ∧
        ∀ k' i', embedding_after_steps (fun _ => (7 : ℤ)) (fun i => i == 0) true
            (fun _ w i => w i + 1) (fun _ v => v + v) k' i' ≠
              (fun _ => (7 : ℤ)) i' →
          (fun i : ℕ => i == 0) i' = false) :=
  ⟨⟨le_refl 1, rfl⟩,
    frozen_rows_bit_identical (fun _ => (7 : ℤ)) (fun i => i == 0) true
      (fun _ w i => w i + 1) (fun _ v => v + v) 1 0 (le_refl 1) rfl⟩

/-- Claim C5: with `clip_ti_decay = False`, the first accumulation boundary
of `train_inversion` (reached on the very first batch, after exactly one
loss/backward step) reads the never-assigned local `pre_norm` in the
logging line and the run aborts with `UnboundLocalError`; with
`clip_ti_decay = True` the same run completes all `num_steps` steps. -/
theorem pre_norm_read_before_assignment (n L a : ℕ)
    (hn : 1 ≤ n) (hL : 1 ≤ L) (ha : 1 ≤ a) :
    train_inversion_run false n L a =
        .error ("UnboundLocalError: pre_norm referenced before assignment", 1) ∧
      train_inversion_run true n L a = .ok n := by
  obtain ⟨h1, h2, h3⟩ := ceil_div_bounds n L hn hL
  constructor
  · obtain ⟨e, he⟩ : ∃ e, (n + L - 1) / L = e + 1 := ⟨(n + L - 1) / L - 1, by omega⟩
    obtain ⟨L', hL'⟩ : ∃ L', L = L' + 1 := ⟨L - 1, by omega⟩
    rw [train_inversion_run, he, hL', ti_run_epochs, ti_run_inner]
    simp only [Nat.zero_mod, beq_self_eq_true, if_true, Bool.false_or]
    rfl
  · obtain ⟨pn', hpn'⟩ := ti_run_epochs_ok a n L ((n + L - 1) / L) 0 false
      (by omega) (by omega) (by omega)
    rw [train_inversion_run, hpn']
    rfl

/-- Witness for C5 at `num_steps = 3`, loader length `2`, `accum_iter = 2`. -/
theorem pre_norm_read_before_assignment_witness :
    (1 ≤ 3 ∧ 1 ≤ 2 ∧ 1 ≤ 2) ∧
      (train_inversion_run false 3 2 2 =
          .error ("UnboundLocalError: pre_norm referenced before assignment", 1) ∧
        train_inversion_run true 3 2 2 = .ok 3) :=
  ⟨by decide, pre_norm_read_before_assignment 3 2 2 (by decide) (by decide) (by decide)⟩

end CliLoraPti

namespace CliLoraPti

/-! ### The scalar loss reduction of `loss_step`

`loss_step` ends with
`F.mse_loss(model_pred.float(), target.float(), reduction="none")
.mean([1,2,3]).mean()`: elementwise squared difference on a
`(batch, channel, height, width)` tensor, mean over dims 1,2,3 (one value
per example), then mean over the batch dim.  Float entries are modelled as
exact rationals; a mean over an index set is the sum divided by its
cardinality. -/

def mse_loss_no_reduction {b c h w : ℕ}
    (model_pred target : Fin b → Fin c → Fin h → Fin w → ℚ) :
    Fin b → Fin c → Fin h → Fin w → ℚ :=
  fun i j k l => (model_pred i j k l - target i j k l) ^ 2

def mean_non_batch_dims {b c h w : ℕ}
    (t : Fin b → Fin c → Fin h → Fin w → ℚ) : Fin b → ℚ :=
  fun i => (∑ j, ∑ k, ∑ l, t i j k l) / (c * h * w)

def mean_over_batch {b : ℕ} (v : Fin b → ℚ) : ℚ :=
  (∑ i, v i) / b

def loss_step_value {b c h w : ℕ}
    (model_pred target : Fin b → Fin c → Fin h → Fin w → ℚ) : ℚ :=
  mean_over_batch (mean_non_batch_dims (mse_loss_no_reduction model_pred target))

/-- The spec's wording of the loss, written independently: squared
differences averaged first over the non-batch dimensions of each example,
then averaged over the batch dimension. -/
def spec_loss_double_average {b c h w : ℕ}
    (model_pred target : Fin b → Fin c → Fin h → Fin w → ℚ) : ℚ :=
  (∑ i, (∑ j, ∑ k, ∑ l, (model_pred i j k l - target i j k l) ^ 2) /
    (c * h * w)) / b

/-! ### Timestep sampling in `loss_step`

`timesteps = torch.randint(0, int(scheduler.config.num_train_timesteps *
t_mutliplier), (bsz,))` draws each batch element's timestep uniformly from
`[0, int(T * t_mutliplier))`.  The non-negative float multiplier is
modelled as an exact fraction `mult_num / mult_den`, so the upper bound
`int(T * m)` is the natural floor division `T * mult_num / mult_den`.  A
draw is modelled as an arbitrary natural seed reduced modulo the bound:
every result lies below the bound and every value below the bound is
attained.  `perform_tuning` invokes `loss_step` with `t_mutliplier=0.8`
(i.e. `4/5`) and `mixed_precision=True`. -/

def timestep_upper_bound (num_train_timesteps mult_num mult_den : ℕ) : ℕ :=
  num_train_timesteps * mult_num / mult_den

def sample_timestep (num_train_timesteps mult_num mult_den u : ℕ) : ℕ :=
  u % timestep_upper_bound num_train_timesteps mult_num mult_den

def perform_tuning_t_mutliplier : ℕ × ℕ := (4, 5)

def perform_tuning_mixed_precision : Bool := true

end CliLoraPti

namespace CliLoraPti

/-- Claim C4: the value returned by `loss_step` is the squared differences
between prediction and target averaged first over the non-batch
(channel, height, width) dimensions of each example and then over the
batch dimension, and it is non-negative for every input. -/
theorem loss_step_double_average_nonneg {b c h w : ℕ}
    (model_pred target : Fin b → Fin c → Fin h → Fin w → ℚ) :
    loss_step_value model_pred target = spec_loss_double_average model_pred target ∧
      0 ≤ loss_step_value model_pred target := by
  refine ⟨rfl, ?_⟩
  unfold loss_step_value mean_over_batch mean_non_batch_dims mse_loss_no_reduction
  apply div_nonneg _ (by positivity)
  apply Finset.sum_nonneg
  intro i _
  apply div_nonneg _ (by positivity)
  apply Finset.sum_nonneg
  intro j _
  apply Finset.sum_nonneg
  intro k _
  apply Finset.sum_nonneg
  intro l _
  positivity

/-- Claim C6: every `loss_step` call samples each timestep uniformly from
`[0, floor(T * t_mutliplier))` — any draw is `< floor(T * m)` and every
value below that bound is attainable — and `perform_tuning` always calls
`loss_step` with `t_mutliplier = 0.8 = 4/5` and mixed precision enabled,
so tuning timesteps are uniform in `[0, floor(0.8 * T))`. -/
theorem tuning_timesteps_uniform_in_scaled_range (T u v : ℕ)
    (hpos : 0 < timestep_upper_bound T 4 5)
    (hv : v < timestep_upper_bound T 4 5) :
    perform_tuning_t_mutliplier = (4, 5) ∧
      perform_tuning_mixed_precision = true ∧
      (∀ mn md : ℕ,
        timestep_upper_bound T mn md = ⌊(T : ℚ) * ((mn : ℚ) / (md : ℚ))⌋₊) ∧
      sample_timestep T 4 5 u < timestep_upper_bound T 4 5 ∧
      sample_timestep T 4 5 v = v := by
  refine ⟨rfl, rfl, ?_, Nat.mod_lt u hpos, Nat.mod_eq_of_lt hv⟩
  intro mn md
  rw [timestep_upper_bound]
  have hcast : (T : ℚ) * ((mn : ℚ) / (md : ℚ)) = ((T * mn : ℕ) : ℚ) / (md : ℚ) := by
    push_cast
    ring
  rw [hcast, Nat.floor_div_nat, Nat.floor_natCast]

/-- Witness for C6 at `T = 10`: the bound is `10 * 4 / 5 = 8`. -/
theorem tuning_timesteps_uniform_in_scaled_range_witness :
    (0 < timestep_upper_bound 10 4 5 ∧ 3 < timestep_upper_bound 10 4 5) ∧
      (perform_tuning_t_mutliplier = (4, 5) ∧
        perform_tuning_mixed_precision = true ∧
        (∀ mn md : ℕ,
          timestep_upper_bound 10 mn md = ⌊(10 : ℚ) * ((mn : ℚ) / (md : ℚ))⌋₊) ∧
        sample_timestep 10 4 5 123 < timestep_upper_bound 10 4 5 ∧
        sample_timestep 10 4 5 3 = 3) :=
  ⟨by decide, tuning_timesteps_uniform_in_scaled_range 10 123 3 (by decide) (by decide)⟩

end CliLoraPti

namespace CliLoraPti

/-! ### Checkpoint naming in both loops

In `train_inversion`, after `global_step += 1`, the block
`if global_step % save_steps == 0:` calls `save_all` with
`step_inv_{global_step}.{'safetensors' if text_encoder.device.type != 'cpu'
else 'pt'}`; `perform_tuning` does the same with `step_{global_step}.…`
and, after its loop, always writes one more checkpoint named
`{out_name}.…`.  The simulations below reuse the epoch/step/break
structure and accumulate the save-path file names in order. -/

def ckpt_ext (device_type : String) : String :=
  if device_type ≠ "cpu" then "safetensors" else "pt"

def inv_ckpt_name (device_type : String) (global_step : ℕ) : String :=
  "step_inv_" ++ toString global_step ++ "." ++ ckpt_ext device_type

def tuning_ckpt_name (device_type : String) (global_step : ℕ) : String :=
  "step_" ++ toString global_step ++ "." ++ ckpt_ext device_type

def final_ckpt_name (device_type out_name : String) : String :=
  out_name ++ "." ++ ckpt_ext device_type

def save_inner (nameOf : ℕ → String) (save_steps n : ℕ) :
    ℕ → ℕ → List String → ℕ × List String
  | 0, s, acc => (s, acc)
  | b + 1, s, acc =>
    let s' := s + 1
    let acc' := if s' % save_steps == 0 then acc ++ [nameOf s'] else acc
    if n ≤ s' then (s', acc') else save_inner nameOf save_steps n b s' acc'

def save_epochs (nameOf : ℕ → String) (save_steps n L : ℕ) :
    ℕ → ℕ → List String → ℕ × List String
  | 0, s, acc => (s, acc)
  | e + 1, s, acc =>
    save_epochs nameOf save_steps n L e
      (save_inner nameOf save_steps n L s acc).1
      (save_inner nameOf save_steps n L s acc).2

def train_inversion_ckpts (n save_steps L : ℕ) (device_type : String) :
    List String :=
  (save_epochs (inv_ckpt_name device_type) save_steps n L
    ((n + L - 1) / L) 0 []).2

def perform_tuning_ckpts (n save_steps L : ℕ) (device_type out_name : String) :
    List String :=
  (save_epochs (tuning_ckpt_name device_type) save_steps n L
    ((n + L - 1) / L) 0 []).2 ++ [final_ckpt_name device_type out_name]

/-- Names saved at the steps `lo, lo+1, …, lo+len-1` that are multiples of
`save_steps`. -/
def saved_in_range (nameOf : ℕ → String) (save_steps lo len : ℕ) : List String :=
  ((List.range' lo len).filter (fun k => k % save_steps == 0)).map nameOf

end CliLoraPti

namespace CliLoraPti

theorem saved_in_range_append (nameOf : ℕ → String) (sv lo a b : ℕ) :
    saved_in_range nameOf sv lo a ++ saved_in_range nameOf sv (lo + a) b =
      saved_in_range nameOf sv lo (a + b) := by
  unfold saved_in_range
  rw [← List.map_append, ← List.filter_append]
  congr 1
  have h := List.range'_append lo a b 1
  rw [Nat.one_mul] at h
  rw [h, Nat.add_comm b a]

theorem saved_in_range_one (nameOf : ℕ → String) (sv k : ℕ) :
    saved_in_range nameOf sv k 1 =
      if k % sv == 0 then [nameOf k] else [] := by
  unfold saved_in_range
  rw [List.range'_one, List.filter_cons]
  by_cases hsv : k % sv == 0
  · simp [hsv]
  · simp [hsv]

theorem save_inner_eq (nameOf : ℕ → String) (sv n : ℕ) :
    ∀ b s acc, s < n → save_inner nameOf sv n b s acc =
      (min (s + b) n, acc ++ saved_in_range nameOf sv (s + 1) (min (s + b) n - s)) := by
  intro b
  induction b with
  | zero =>
    intro s acc hs
    rw [save_inner, show min (s + 0) n = s by omega]
    simp [saved_in_range]
  | succ b ih =>
    intro s acc hs
    rw [save_inner]
    by_cases hend : n ≤ s + 1
    · have hmin : min (s + (b + 1)) n = s + 1 := by omega
      simp only [hend, if_true, hmin]
      rw [show s + 1 - s = 1 by omega, saved_in_range_one]
      by_cases hsv : (s + 1) % sv == 0
      · simp [hsv]
      · simp [hsv]
    · have hmin : min (s + (b + 1)) n = min (s + 1 + b) n := by omega
      simp only [hend, if_false]
      rw [ih (s + 1) _ (by omega), hmin]
      have hsplit := saved_in_range_append nameOf sv (s + 1) 1 (min (s + 1 + b) n - (s + 1))
      rw [show 1 + (min (s + 1 + b) n - (s + 1)) = min (s + 1 + b) n - s by omega] at hsplit
      congr 1
      rw [← hsplit, saved_in_range_one, ← List.append_assoc]
      congr 1
      by_cases hsv : (s + 1) % sv == 0
      · simp [hsv]
      · simp [hsv]

theorem save_epochs_eq (nameOf : ℕ → String) (sv n L : ℕ) :
    ∀ e s acc, s < n → n ≤ s + e * L → s + (e - 1) * L < n →
      save_epochs nameOf sv n L e s acc =
        (n, acc ++ saved_in_range nameOf sv (s + 1) (n - s)) := by
  intro e
  induction e with
  | zero => intro s acc hs hub _; omega
  | succ e ih =>
    intro s acc hs hub hlb
    rw [save_epochs, save_inner_eq nameOf sv n L s acc hs]
    rcases Nat.eq_zero_or_pos e with he0 | he1
    · subst he0
      have hub0 : n ≤ s + L := by simpa using hub
      have hmin : min (s + L) n = n := by omega
      rw [hmin, save_epochs]
    · have hlb1 : s + e * L < n := by rw [Nat.succ_sub_one] at hlb; exact hlb
      have hL1 : L ≤ e * L := Nat.le_mul_of_pos_left L he1
      have hub1 : n ≤ s + L + e * L := by rw [Nat.succ_mul] at hub; omega
      have hsL : s + L < n := by omega
      have hmin : min (s + L) n = s + L := by omega
      rw [hmin]
      rw [ih (s + L) _ hsL hub1 (by rw [Nat.sub_one_mul]; omega)]
      rw [show s + L - s = L by omega, List.append_assoc]
      congr 2
      rw [show s + L + 1 = s + 1 + L by omega]
      rw [saved_in_range_append]
      congr 1
      omega

theorem saved_eq_range_filter (nameOf : ℕ → String) (sv n : ℕ) :
    saved_in_range nameOf sv 1 n =
      ((List.range (n + 1)).filter (fun k => !(k == 0) && (k % sv == 0))).map
        nameOf := by
  rw [List.range_eq_range', List.range'_succ, List.filter_cons]
  simp only [beq_self_eq_true, Bool.not_true, Bool.false_and, Bool.false_eq_true,
    if_false]
  unfold saved_in_range
  congr 1
  rw [Nat.zero_add]
  apply List.filter_congr
  intro x hx
  rw [List.mem_range'_1] at hx
  have hx0 : (x == 0) = false := by
    have : x ≠ 0 := by omega
    simp [this]
  rw [hx0]
  simp

end CliLoraPti

namespace CliLoraPti

/-- Claim C8: checkpoints are written as `step_inv_{global_step}` at every
multiple of `save_steps` in inversion and as `step_{global_step}` in
tuning; the extension is `safetensors` when the device is not `cpu` and
`pt` on `cpu`; and on every normal exit of `perform_tuning` exactly one
final checkpoint named `{out_name}` is written after its loop. -/
theorem checkpoint_names (n sv L : ℕ) (device_type out_name : String)
    (hn : 1 ≤ n) (hsv : 1 ≤ sv) (hL : 1 ≤ L) :
    train_inversion_ckpts n sv L device_type =
        ((List.range (n + 1)).filter (fun k => !(k == 0) && (k % sv == 0))).map
          (inv_ckpt_name device_type) ∧
      perform_tuning_ckpts n sv L device_type out_name =
        ((List.range (n + 1)).filter (fun k => !(k == 0) && (k % sv == 0))).map
            (tuning_ckpt_name device_type) ++
          [final_ckpt_name device_type out_name] ∧
      ckpt_ext "cpu" = "pt" ∧
      (∀ d, d ≠ "cpu" → ckpt_ext d = "safetensors") := by
  obtain ⟨h1, h2, h3⟩ := ceil_div_bounds n L hn hL
  refine ⟨?_, ?_, by simp [ckpt_ext], fun d hd => by simp [ckpt_ext, hd]⟩
  · rw [train_inversion_ckpts,
      save_epochs_eq (inv_ckpt_name device_type) sv n L ((n + L - 1) / L) 0 []
        (by omega) (by omega) (by omega)]
    rw [show n - 0 = n by omega, show (0 : ℕ) + 1 = 1 by rfl]
    rw [saved_eq_range_filter]
    simp
  · rw [perform_tuning_ckpts,
      save_epochs_eq (tuning_ckpt_name device_type) sv n L ((n + L - 1) / L) 0 []
        (by omega) (by omega) (by omega)]
    rw [show n - 0 = n by omega, show (0 : ℕ) + 1 = 1 by rfl]
    rw [saved_eq_range_filter]
    simp

/-- Witness for C8 at `num_steps = 2`, `save_steps = 1`, loader length `1`,
device `cpu`. -/
theorem checkpoint_names_witness :
    (1 ≤ 2 ∧ 1 ≤ 1) ∧
      (train_inversion_ckpts 2 1 1 "cpu" =
          ((List.range (2 + 1)).filter (fun k => !(k == 0) && (k % 1 == 0))).map
            (inv_ckpt_name "cpu") ∧
        perform_tuning_ckpts 2 1 1 "cpu" "final_lora" =
          ((List.range (2 + 1)).filter (fun k => !(k == 0) && (k % 1 == 0))).map
              (tuning_ckpt_name "cpu") ++
            [final_ckpt_name "cpu" "final_lora"] ∧
        ckpt_ext "cpu" = "pt" ∧
        (∀ d, d ≠ "cpu" → ckpt_ext d = "safetensors")) :=
  ⟨by decide,
    checkpoint_names 2 1 1 "cpu" "final_lora" (by decide) (by decide) (by decide)⟩

end CliLoraPti

namespace CliLoraPti

/-! ### `clip_ti_decay` renormalization of a trainable embedding row

With decay enabled, at every accumulation boundary `train_inversion`
replaces each trainable row `w` by
`F.normalize(w, dim=-1) * (pre_norm + lambda_ * (0.4 - pre_norm))` where
`pre_norm = w.norm(dim=-1)` and
`lambda_ = min(1.0, 100 * lr_scheduler.get_last_lr()[0])`.  Rows are
vectors in `EuclideanSpace ℝ (Fin d)`; `F.normalize` divides a row by its
norm (a zero row stays zero, matching division-by-zero conventions on
both sides up to the framework's epsilon guard). -/

noncomputable def F_normalize {d : ℕ} (x : EuclideanSpace ℝ (Fin d)) :
    EuclideanSpace ℝ (Fin d) :=
  ‖x‖⁻¹ • x

noncomputable def clip_ti_decay_row {d : ℕ} (current_lr : ℝ)
    (old_row : EuclideanSpace ℝ (Fin d)) : EuclideanSpace ℝ (Fin d) :=
  (‖old_row‖ + min 1 (100 * current_lr) * (0.4 - ‖old_row‖)) •
    F_normalize old_row

/-! ### Supervision-mask weighting in `loss_step`

When the batch carries a supervision mask, `loss_step` reshapes it and
resizes it with `F.interpolate(..., mode="nearest")` to the prediction's
spatial shape — nearest-neighbour resizing (like the reshape) only
*selects* source entries, modelled by arbitrary index-selection maps —
then computes `mask = (mask + 0.01).pow(mask_temperature)` and
`mask = mask / mask.max()`.  Dimensions are written as successors because
torch tensors here are nonempty.  The float exponent makes this real
`rpow`. -/

def nearest_resized_mask {b hh ww h2 w2 : ℕ}
    (mask : Fin (b + 1) → Fin (hh + 1) → Fin (ww + 1) → ℝ)
    (selH : Fin (h2 + 1) → Fin (hh + 1)) (selW : Fin (w2 + 1) → Fin (ww + 1)) :
    Fin (b + 1) → Fin (h2 + 1) → Fin (w2 + 1) → ℝ :=
  fun i j k => mask i (selH j) (selW k)

noncomputable def mask_floor_pow {b h2 w2 : ℕ}
    (m : Fin (b + 1) → Fin (h2 + 1) → Fin (w2 + 1) → ℝ)
    (mask_temperature : ℝ) : Fin (b + 1) → Fin (h2 + 1) → Fin (w2 + 1) → ℝ :=
  fun i j k => (m i j k + 0.01) ^ mask_temperature

noncomputable def mask_weight_max {b h2 w2 : ℕ}
    (m : Fin (b + 1) → Fin (h2 + 1) → Fin (w2 + 1) → ℝ) : ℝ :=
  Finset.univ.sup' Finset.univ_nonempty
    (fun p : Fin (b + 1) × Fin (h2 + 1) × Fin (w2 + 1) => m p.1 p.2.1 p.2.2)

noncomputable def applied_mask_weight {b hh ww h2 w2 : ℕ}
    (mask : Fin (b + 1) → Fin (hh + 1) → Fin (ww + 1) → ℝ)
    (selH : Fin (h2 + 1) → Fin (hh + 1)) (selW : Fin (w2 + 1) → Fin (ww + 1))
    (mask_temperature : ℝ) : Fin (b + 1) → Fin (h2 + 1) → Fin (w2 + 1) → ℝ :=
  fun i j k =>
    mask_floor_pow (nearest_resized_mask mask selH selW) mask_temperature i j k /
      mask_weight_max (mask_floor_pow (nearest_resized_mask mask selH selW)
        mask_temperature)

end CliLoraPti

namespace CliLoraPti

/-- Claim C2: with `clip_ti_decay` enabled each trainable row is replaced
by `normalize(old) * (pre_norm + lambda * (0.4 - pre_norm))` with
`lambda = min(1, 100 * current_lr)`, and for every non-negative learning
rate the post-update row norm lies between the pre-update norm and `0.4`
(inclusive), never overshooting `0.4`. -/
theorem clip_ti_decay_norm_bounds {d : ℕ} (current_lr : ℝ)
    (x : EuclideanSpace ℝ (Fin d)) (hlr : 0 ≤ current_lr) :
    min ‖x‖ 0.4 ≤ ‖clip_ti_decay_row current_lr x‖ ∧
      ‖clip_ti_decay_row current_lr x‖ ≤ max ‖x‖ 0.4 := by
  set l := min 1 (100 * current_lr) with hldef
  have hl0 : 0 ≤ l := le_min (by norm_num) (by positivity)
  have hl1 : l ≤ 1 := min_le_left _ _
  have hN0 : (0 : ℝ) ≤ ‖x‖ := norm_nonneg x
  have hc0 : 0 ≤ ‖x‖ + l * (0.4 - ‖x‖) := by
    nlinarith [mul_nonneg (sub_nonneg.mpr hl1) hN0]
  by_cases hx : x = (0 : EuclideanSpace ℝ (Fin d))
  · subst hx
    simp only [clip_ti_decay_row, F_normalize, smul_zero, norm_zero]
    norm_num
  · have hunit : ‖F_normalize x‖ = 1 := by
      rw [F_normalize]
      exact norm_smul_inv_norm hx
    have hnorm : ‖clip_ti_decay_row current_lr x‖ = ‖x‖ + l * (0.4 - ‖x‖) := by
      rw [clip_ti_decay_row, norm_smul, hunit, mul_one, Real.norm_eq_abs,
        ← hldef, abs_of_nonneg hc0]
    rw [hnorm]
    constructor
    · rcases le_total ‖x‖ 0.4 with h | h
      · rw [min_eq_left h]
        nlinarith [mul_nonneg hl0 (sub_nonneg.mpr h)]
      · rw [min_eq_right h]
        nlinarith [mul_nonneg (sub_nonneg.mpr hl1) (sub_nonneg.mpr h)]
    · rcases le_total ‖x‖ 0.4 with h | h
      · rw [max_eq_right h]
        nlinarith [mul_nonneg (sub_nonneg.mpr hl1) (sub_nonneg.mpr h)]
      · rw [max_eq_left h]
        nlinarith [mul_nonneg hl0 (sub_nonneg.mpr h)]

/-- Witness for C2 at learning rate `0` on a zero row in dimension 1. -/
theorem clip_ti_decay_norm_bounds_witness :
    0 ≤ (0 : ℝ) ∧
      (min ‖(0 : EuclideanSpace ℝ (Fin 1))‖ 0.4 ≤
          ‖clip_ti_decay_row 0 (0 : EuclideanSpace ℝ (Fin 1))‖ ∧
        ‖clip_ti_decay_row 0 (0 : EuclideanSpace ℝ (Fin 1))‖ ≤
          max ‖(0 : EuclideanSpace ℝ (Fin 1))‖ 0.4) :=
  ⟨le_refl 0, clip_ti_decay_norm_bounds 0 0 (le_refl 0)⟩

/-- Claim C7: when the batch mask is identically zero, the applied weight
after the `+0.01` floor, the `mask_temperature` power, and division by its
own maximum is identically `1` — in particular strictly positive — at
every spatial location, so every location still contributes to the loss. -/
theorem zero_mask_weight_identically_one {b hh ww h2 w2 : ℕ}
    (mask : Fin (b + 1) → Fin (hh + 1) → Fin (ww + 1) → ℝ)
    (selH : Fin (h2 + 1) → Fin (hh + 1)) (selW : Fin (w2 + 1) → Fin (ww + 1))
    (mask_temperature : ℝ) (hmask : ∀ i j k, mask i j k = 0) :
    ∀ i j k, applied_mask_weight mask selH selW mask_temperature i j k = 1 ∧
      0 < applied_mask_weight mask selH selW mask_temperature i j k := by
  have hconst : mask_floor_pow (nearest_resized_mask mask selH selW)
      mask_temperature = fun _ _ _ => (0.01 : ℝ) ^ mask_temperature := by
    funext i j k
    rw [mask_floor_pow, nearest_resized_mask, hmask, zero_add]
  have hpos : (0 : ℝ) < (0.01 : ℝ) ^ mask_temperature :=
    Real.rpow_pos_of_pos (by norm_num) mask_temperature
  have hmax : mask_weight_max (mask_floor_pow (nearest_resized_mask mask selH selW)
      mask_temperature) = (0.01 : ℝ) ^ mask_temperature := by
    rw [hconst, mask_weight_max]
    exact Finset.sup'_const _ _
  intro i j k
  have happ : applied_mask_weight mask selH selW mask_temperature i j k =
      ((0.01 : ℝ) ^ mask_temperature) / ((0.01 : ℝ) ^ mask_temperature) := by
    rw [applied_mask_weight, hmax, hconst]
  rw [happ, div_self (ne_of_gt hpos)]
  exact ⟨rfl, one_pos⟩

/-- Witness for C7 on the all-zero `1×1×1` mask with temperature `2`. -/
theorem zero_mask_weight_identically_one_witness :
    (∀ i j k : Fin 1, (fun _ _ _ => (0 : ℝ)) i j k = 0) ∧
      (∀ i j k, @applied_mask_weight 0 0 0 0 0 (fun _ _ _ => (0 : ℝ)) id id 2 i j k = 1 ∧
        0 < @applied_mask_weight 0 0 0 0 0 (fun _ _ _ => (0 : ℝ)) id id 2 i j k) :=
  ⟨fun _ _ _ => rfl,
    zero_mask_weight_identically_one (fun _ _ _ => (0 : ℝ)) id id 2
      (fun _ _ _ => rfl)⟩

end CliLoraPti

namespace CliLoraPti

/-! ### Startup / first-use configuration errors

`train` asserts `sorted(placeholder_tokens) == placeholder_tokens` (only
when the placeholder list is nonempty — an empty CLI string yields the
empty list and skips the split) and
`len(initializer_tokens) == len(placeholder_tokens)` (with
`["<rand-0.017>"] * len(placeholder_tokens)` as the default when no
initializer string was given).  Python compares strings lexicographically
by code point, and `sorted(l) == l` for a total order means `l` is
pairwise non-decreasing.  `get_models` rejects a non-`<rand…>`,
non-`<zero>` initializer token that tokenizes to more than one id;
tokenization is an external collaborator, so `encode` is a parameter.
`loss_step` rejects any `scheduler.config.prediction_type` other than
`"epsilon"` and `"v_prediction"`.  All are raised exceptions, modelled as
`Except.error`; none is retried. -/

def char_lex_ltb : List Char → List Char → Bool
  | [], [] => false
  | [], _ :: _ => true
  | _ :: _, [] => false
  | a :: as, b :: bs =>
    if a.val < b.val then true
    else if b.val < a.val then false
    else char_lex_ltb as bs

def string_ltb (a b : String) : Bool :=
  char_lex_ltb a.data b.data

def is_sorted_list : List String → Bool
  | [] => true
  | [_] => true
  | a :: b :: r => !(string_ltb b a) && is_sorted_list (b :: r)

def train_token_validation (placeholder_tokens : List String)
    (initializer_tokens : Option (List String)) :
    Except String (List String × List String) :=
  if placeholder_tokens ≠ [] ∧ is_sorted_list placeholder_tokens = false then
    .error "Placeholder tokens should be sorted."
  else
    let inits := match initializer_tokens with
      | none => List.replicate placeholder_tokens.length "<rand-0.017>"
      | some l => l
    if inits.length ≠ placeholder_tokens.length then
      .error "Unequal Initializer token for Placeholder tokens."
    else
      .ok (placeholder_tokens, inits)

inductive InitializerResolution where
  | rand : InitializerResolution
  | zero : InitializerResolution
  | copy : ℕ → InitializerResolution
deriving DecidableEq

def resolve_initializer_token (encode : String → List ℕ) (init_tok : String) :
    Except String InitializerResolution :=
  if init_tok.startsWith "<rand" then .ok .rand
  else if init_tok = "<zero>" then .ok .zero
  else
    if 1 < (encode init_tok).length then
      .error "The initializer token must be a single token."
    else
      match encode init_tok with
      | [] => .error "IndexError: list index out of range"
      | t :: _ => .ok (.copy t)

def loss_step_target_kind (prediction_type : String) : Except String String :=
  if prediction_type = "epsilon" then .ok "noise"
  else if prediction_type = "v_prediction" then .ok "velocity"
  else .error ("Unknown prediction type " ++ prediction_type)

end CliLoraPti

namespace CliLoraPti

/-- Claim C9: each configuration error is a fatal, unretried exception:
`train` fails when the placeholder-token list is not sorted or when the
initializer-token list length differs from the placeholder-token list
length; `get_models` fails when a non-`<rand…>`/`<zero>` initializer
tokenizes to more than one id; `loss_step` fails when the scheduler's
prediction type is neither `epsilon` nor `v_prediction`. -/
theorem config_errors_fatal :
    (∀ ph init, is_sorted_list ph = false →
      (train_token_validation ph init).isOk = false) ∧
      (∀ ph l, List.length l ≠ List.length ph →
        (train_token_validation ph (some l)).isOk = false) ∧
      (∀ encode tok, tok.startsWith "<rand" = false → tok ≠ "<zero>" →
        1 < (encode tok).length →
        resolve_initializer_token encode tok =
          .error "The initializer token must be a single token.") ∧
      (∀ pt, pt ≠ "epsilon" → pt ≠ "v_prediction" →
        loss_step_target_kind pt =
          .error ("Unknown prediction type " ++ pt)) := by
  refine ⟨?_, ?_, ?_, ?_⟩
  · intro ph init hsort
    have hne : ph ≠ [] := by
      intro h0
      subst h0
      simp [is_sorted_list] at hsort
    unfold train_token_validation
    rw [if_pos ⟨hne, hsort⟩]
    rfl
  · intro ph l hlen
    by_cases hcond : ph ≠ [] ∧ is_sorted_list ph = false
    · unfold train_token_validation
      rw [if_pos hcond]
      rfl
    · unfold train_token_validation
      rw [if_neg hcond]
      simp only []
      rw [if_pos hlen]
      rfl
  · intro encode tok h1 h2 h3
    rw [resolve_initializer_token, if_neg (by simp [h1]), if_neg h2, if_pos h3]
  · intro pt h1 h2
    rw [loss_step_target_kind, if_neg h1, if_neg h2]

/-- Witness for C9: an unsorted pair, a length mismatch, a two-id
initializer, and an unknown prediction type. -/
theorem config_errors_fatal_witness :
    (train_token_validation ["b", "a"] none).isOk = false ∧
      (train_token_validation ["a"] (some ["x", "y"])).isOk = false ∧
      resolve_initializer_token (fun _ => [1, 2]) "tok" =
        .error "The initializer token must be a single token." ∧
      loss_step_target_kind "sample" =
        .error ("Unknown prediction type " ++ "sample") :=
  ⟨config_errors_fatal.1 ["b", "a"] none (by decide),
    config_errors_fatal.2.1 ["a"] ["x", "y"] (by decide),
    config_errors_fatal.2.2.1 (fun _ => [1, 2]) "tok" (by decide) (by decide)
      (by decide),
    config_errors_fatal.2.2.2 "sample" (by decide) (by decide)⟩

end CliLoraPti
